import Mathlib

/-!
Verification development for the live event fan-out subsystem of the chat
backend (`src/routers/chat.py`).

The Python code is shallowly embedded: the `ConnectionManager` registry
becomes a pure state-transformer over an association list keyed by session
identifier; each `asyncio.Queue(maxsize=100)` becomes a `Queue` record
carrying an identity tag (`qid`, standing for Python object identity) and a
FIFO list of items (head = front, `put_nowait` appends at the tail).
`put_nowait` raises only `QueueFull`; the generic-exception branch of
`broadcast` (the `dead_queues` cleanup) is therefore unreachable and the
embedding of `broadcast` performs no removals, exactly as the reachable
code does.

Literal braces inside string literals are written with the escapes
\x7b and \x7d.
-/

namespace ChatCore

/-- One subscriber queue: `asyncio.Queue(maxsize=100)` created by
`ConnectionManager.connect`.  `qid` models Python object identity,
`items` the queued events (front at the head). -/
structure Queue (α : Type) where
  qid : Nat
  items : List α
  deriving Repr, DecidableEq

/-- The queue capacity used by `ConnectionManager.connect`
(`asyncio.Queue(maxsize=100)`). -/
def queueCapacity : Nat := 100

/-- The dict `self.active_connections`: a mapping from session id to the list of
queues, embedded as an association list, together with a fresh-identity
counter used to mint `qid`s for new queues. -/
structure ConnectionManager (α : Type) where
  conns : List (String × List (Queue α))
  nextId : Nat
  deriving Repr, DecidableEq

/-- Lookup in an association list (Python `d[k]` / `k in d`). -/
def lookupA {β : Type} : List (String × β) → String → Option β
  | [], _ => none
  | (k, v) :: rest, s => if k = s then some v else lookupA rest s

/-- Replace the value at the first occurrence of a key; identity when the
key is absent (Python `d[k] = v` on an existing key). -/
def setKey {β : Type} : List (String × β) → String → β → List (String × β)
  | [], _, _ => []
  | (k, v) :: rest, s, w => if k = s then (k, w) :: rest else (k, v) :: setKey rest s w

/-- Delete the first occurrence of a key (Python `del d[k]`). -/
def eraseKey {β : Type} : List (String × β) → String → List (String × β)
  | [], _ => []
  | (k, v) :: rest, s => if k = s then rest else (k, v) :: eraseKey rest s

/-- The statement `self.active_connections[session_id].append(queue)` on a
`defaultdict(list)`: appends to the existing entry, or creates the entry
with a one-element list. -/
def appendQueue {α : Type} : List (String × List (Queue α)) → String → Queue α →
    List (String × List (Queue α))
  | [], sid, q => [(sid, [q])]
  | (k, qs) :: rest, sid, q =>
    if k = sid then (k, qs ++ [q]) :: rest else (k, qs) :: appendQueue rest sid q

/-- Python `list.remove(queue)`: remove the first queue with the given identity;
identity when absent. -/
def removeQ {α : Type} : List (Queue α) → Nat → List (Queue α)
  | [], _ => []
  | q :: rest, i => if q.qid = i then rest else q :: removeQ rest i

/-- The method `ConnectionManager.connect(session_id)`: create a fresh empty bounded
queue and register it under the session id.  Returns the new state and the
identity of the created queue. -/
def connect {α : Type} (cm : ConnectionManager α) (sid : String) :
    ConnectionManager α × Nat :=
  (⟨appendQueue cm.conns sid ⟨cm.nextId, []⟩, cm.nextId + 1⟩, cm.nextId)

/-- The method `ConnectionManager.disconnect(session_id, queue)`: if the session is
registered, remove the queue (first identity match, no-op when absent),
then delete the map entry when the remaining list is empty. -/
def disconnect {α : Type} (cm : ConnectionManager α) (sid : String) (i : Nat) :
    ConnectionManager α :=
  match lookupA cm.conns sid with
  | none => cm
  | some qs =>
    let qs' := removeQ qs i
    if qs'.isEmpty then ⟨eraseKey cm.conns sid, cm.nextId⟩
    else ⟨setKey cm.conns sid qs', cm.nextId⟩

/-- One `queue.put_nowait(message)` attempt inside `broadcast`: the event
is appended when there is room, and dropped (`QueueFull` caught, logged)
when the queue is full. -/
def putIfRoom {α : Type} (e : α) (q : Queue α) : Queue α :=
  if q.items.length < queueCapacity then ⟨q.qid, q.items ++ [e]⟩ else q

/-- The method `ConnectionManager.broadcast(session_id, message)`: for each queue of
the session, a non-blocking enqueue that drops on `QueueFull`.  Sessions
not in the map are untouched; `put_nowait` raises nothing but `QueueFull`,
so the `dead_queues` cleanup never removes anything. -/
def broadcast {α : Type} (cm : ConnectionManager α) (sid : String) (e : α) :
    ConnectionManager α :=
  match lookupA cm.conns sid with
  | none => cm
  | some qs => ⟨setKey cm.conns sid (qs.map (putIfRoom e)), cm.nextId⟩

/-- The value `self.active_connections.get(session_id, [])`: the queues currently
registered for a session (empty when the session has no entry). -/
def queuesOf {α : Type} (cm : ConnectionManager α) (sid : String) : List (Queue α) :=
  (lookupA cm.conns sid).getD []

/-- The method `ConnectionManager.get_connection_count(session_id)`. -/
def get_connection_count {α : Type} (cm : ConnectionManager α) (sid : String) : Nat :=
  (queuesOf cm sid).length

/-- Find the queue with a given identity among the queues of a session. -/
def findQ {α : Type} : List (Queue α) → Nat → Option (Queue α)
  | [], _ => none
  | q :: rest, i => if q.qid = i then some q else findQ rest i

/-- The contents of the identified subscriber queue, if registered. -/
def itemsOf {α : Type} (cm : ConnectionManager α) (sid : String) (i : Nat) :
    Option (List α) :=
  (findQ (queuesOf cm sid) i).map Queue.items

/-- The three registry operations, for reasoning about arbitrary
interleavings. -/
inductive Op (α : Type) where
  | connect (sid : String)
  | disconnect (sid : String) (i : Nat)
  | broadcast (sid : String) (e : α)

/-- Apply one registry operation. -/
def step {α : Type} (cm : ConnectionManager α) : Op α → ConnectionManager α
  | .connect sid => (connect cm sid).1
  | .disconnect sid i => disconnect cm sid i
  | .broadcast sid e => broadcast cm sid e

/-- Run a sequence of registry operations. -/
def run {α : Type} (cm : ConnectionManager α) : List (Op α) → ConnectionManager α
  | [] => cm
  | op :: ops => run (step cm op) ops

/-- The registry state invariant: session keys are distinct (it embeds a
dict), no entry holds an empty subscriber list, every queue identity is
below the freshness counter, and identities within an entry are distinct. -/
def Inv {α : Type} (cm : ConnectionManager α) : Prop :=
  (cm.conns.map Prod.fst).Nodup ∧
  (∀ p ∈ cm.conns, p.2 ≠ []) ∧
  (∀ p ∈ cm.conns, ∀ q ∈ p.2, q.qid < cm.nextId) ∧
  (∀ p ∈ cm.conns, (p.2.map Queue.qid).Nodup)

/-- The empty registry (module initialisation:
`connection_manager = ConnectionManager()`). -/
def emptyCM (α : Type) : ConnectionManager α := ⟨[], 0⟩

/-- A broadcast event as read by `event_generator`: only the optional `id`, `role`, `content` and `timestamp` keys are consulted
(`message.get(...)`); any other keys (such as `event` or `session_id`)
never influence the emitted frame. -/
structure EventDict where
  id : Option String
  role : Option String
  content : Option String
  timestamp : Option String
  deriving Repr, DecidableEq

/-- Serialization `json.dumps` of a string (values are assumed free of characters that
need escaping, as the embedding treats serialization opaquely). -/
def jsonStr (s : String) : String := "\"" ++ s ++ "\""

/-- Serialization `json.dumps(message_data)` for the four-field dict built in
`event_generator`, with the default Python separators. -/
def messageDataJson (i r c t : String) : String :=
  "\x7b\"id\": " ++ jsonStr i ++ ", \"role\": " ++ jsonStr r ++
    ", \"content\": " ++ jsonStr c ++ ", \"timestamp\": " ++ jsonStr t ++ "\x7d"

/-- The `message_data` dict of `event_generator`: each field falls back to
a default when the dequeued dict lacks the key — a fresh id, role
`"assistant"`, empty content, the current timestamp. -/
def msgDataOf (freshId nowTs : String) (m : EventDict) :
    String × String × String × String :=
  (m.id.getD freshId, m.role.getD "assistant", m.content.getD "",
    m.timestamp.getD nowTs)

/-- The frame `event_generator` yields for a dequeued message. -/
def messageFrame (freshId nowTs : String) (m : EventDict) : String :=
  "event: message\ndata: " ++
    messageDataJson (m.id.getD freshId) (m.role.getD "assistant")
      (m.content.getD "") (m.timestamp.getD nowTs) ++ "\n\n"

/-- The heartbeat frame the code yields: `":heartbeat\n\n"` (no space
after the colon). -/
def heartbeatFrame : String := ":heartbeat\n\n"

/-- The heartbeat frame as the spec writes it — `": heartbeat\n\n"`, with
a space after the colon — kept for comparison against the frame of the code. -/
def specHeartbeatFrame : String := ": heartbeat\n\n"

/-- Outcome of `asyncio.wait_for(queue.get(), timeout=...)`. -/
inductive WaitOutcome (α : Type) where
  | msg (m : α)
  | timedOut
  | cancelled
  deriving Repr, DecidableEq

/-- Observable result of one iteration of the `while True` loop of
`event_generator`: the frame yielded (if any), whether an event was
consumed from the queue, the idle clock after the iteration (`none` once
the loop exits), whether the loop exits, and the timeout passed to
`wait_for` (when the wait was reached). -/
structure IterResult where
  frame : Option String
  consumed : Bool
  newIdle : Option ℚ
  closed : Bool
  waited : Option ℚ
  deriving Repr, DecidableEq

/-- One iteration of the steady loop of `event_generator`: check for peer
disconnect; if idle ≥ 25 s yield the heartbeat and reset the idle clock
without touching the queue; otherwise wait on the queue with timeout
`min(30.0, 25 - idle_time)` — a received message is formatted by
`messageFrame` and resets the idle clock, a timeout leaves the loop to
re-check (idle having grown by the elapsed wait), and cancellation exits
the loop. -/
def streamIter (freshId nowTs : String) (disconnected : Bool) (idle : ℚ)
    (arrival : WaitOutcome EventDict) : IterResult :=
  if disconnected then ⟨none, false, none, true, none⟩
  else if 25 ≤ idle then ⟨some heartbeatFrame, false, some 0, false, none⟩
  else
    let t := min 30 (25 - idle)
    match arrival with
    | .msg m => ⟨some (messageFrame freshId nowTs m), true, some 0, false, some t⟩
    | .timedOut => ⟨none, false, some (idle + t), false, some t⟩
    | .cancelled => ⟨none, false, none, true, some t⟩

/-- The dict broadcast by `delete_session` after a successful delete: keys
`event`, `session_id` and `timestamp` — none of `id`, `role`, `content`. -/
def sessionDeletedEvent (ts : String) : EventDict := ⟨none, none, none, some ts⟩

/-- The check `"text/event-stream" in accept_header`. -/
def acceptsSSE (accept : String) : Bool :=
  decide (List.IsInfix ("text/event-stream".data) accept.data)

/-- The single frame of the `error_generator` branch of `chat_events`. -/
def sseSessionNotFoundFrame : String :=
  "event: error\ndata: \x7b\"error\": \"Session not found\"\x7d\n\n"

/-- What the `chat_events` endpoint returns before/instead of streaming. -/
inductive StreamOutcome where
  | protocolError (code : Nat)
  | errorStream (frames : List String)
  | streaming (qid : Nat)
  deriving Repr, DecidableEq

/-- The endpoint `chat_events(session_id, request)` up to the start of streaming.
The Accept header is checked first (406 before anything else); then the
session is validated against the Session Store and a missing session
produces a one-frame error stream; only then is `connect` called.
The store argument is modelled from the spec: `DomainChatSession.get`
lives outside the provided sources, and the Session Store of the spec
collaborator exposes `get(id) → Session|absent`. -/
def chat_events {α : Type} (accept : String) (store : String → Option Unit)
    (cm : ConnectionManager α) (session_id : String) :
    StreamOutcome × ConnectionManager α :=
  if acceptsSSE accept = false then (.protocolError 406, cm)
  else
    match store session_id with
    | none => (.errorStream [sseSessionNotFoundFrame], cm)
    | some _ =>
      let c := connect cm session_id
      (.streaming c.2, c.1)

/-- A registry state with one full queue (identity 0) and one empty queue
(identity 1) registered under session `"s1"`. -/
def cmFullExample : ConnectionManager Nat :=
  ⟨[("s1", [⟨0, List.replicate 100 0⟩, ⟨1, []⟩])], 2⟩


/-- Python `str.strip()`: drop whitespace from both ends (modelled over
the char list so that it evaluates by reduction). -/
def pyStrip (s : String) : String :=
  String.mk (((s.data.dropWhile Char.isWhitespace).reverse.dropWhile
    Char.isWhitespace).reverse)

/-- A metadata value: the Python dicts in play hold either strings or
booleans under the `error` key. -/
inductive MetaVal where
  | vStr (s : String)
  | vBool (b : Bool)
  deriving Repr, DecidableEq

/-- A message dict as built by `send_message` (all keys present). -/
structure Msg where
  id : String
  ty : String
  role : String
  content : String
  timestamp : String
  metadata : List (String × MetaVal)
  deriving Repr, DecidableEq

/-- An incoming message dict as consumed by `_save_session_messages`:
every key is read with `.get`, so each is optional. -/
structure MsgIn where
  role : Option String
  ty : Option String
  content : Option String
  metadata : Option (List (String × MetaVal))
  deriving Repr, DecidableEq

/-- A message record as rebuilt by `_save_session_messages` through
`session.add_message(role, content, **metadata)`.  Modelled from the
spec for the missing `DomainChatSession.add_message`: a Message carries
role, content and its metadata mapping. -/
structure StoredMsg where
  role : String
  content : String
  metadata : List (String × MetaVal)
  deriving Repr, DecidableEq

/-- Per-message validation of `_save_session_messages`: role defaults to
`user`/`ai` depending on the `type` key, content defaults to `""` and a
falsy (empty) content causes the message to be skipped, a missing or
non-dict metadata becomes `{}`, and a `timestamp` entry is added to the
metadata when absent. -/
def processMsg (now : String) (m : MsgIn) : Option StoredMsg :=
  let role := m.role.getD (if m.ty = some "human" then "user" else "ai")
  let content := m.content.getD ""
  if content = "" then none
  else
    let md := m.metadata.getD []
    let md2 := if (lookupA md "timestamp").isSome then md
      else md ++ [("timestamp", MetaVal.vStr now)]
    some ⟨role, content, md2⟩

/-- The truncation `messages = messages[-max_messages:]` when over the cap. -/
def truncateCap (cap : Nat) (l : List StoredMsg) : List StoredMsg :=
  if cap < l.length then l.drop (l.length - cap) else l

/-- A stored chat-session record for the persistence helper: its message
list and its `updated` stamp.  Modelled from the spec for the missing
`DomainChatSession`: the Session Store keeps a whole record per id. -/
structure SessionRec where
  messages : List StoredMsg
  updated : String
  deriving Repr, DecidableEq

/-- Whole-record replace in the session store (`session.save()`).
Modelled from the spec: persistence replaces the entire message list in
one write. -/
def storeSet (store : String → Option SessionRec) (sid : String)
    (s : SessionRec) : String → Option SessionRec :=
  fun k => if k = sid then some s else store k

/-- Observable outcome of `_save_session_messages`: the boolean result
the Python function returns, the resulting store, the `time.sleep`
durations in order, and how many attempts ran (each attempt re-fetching
the session at the top of its `try`). -/
structure SaveResult where
  ok : Bool
  store : String → Option SessionRec
  sleeps : List ℚ
  attempts : Nat
  fetches : Nat

/-- The `for attempt in range(max_retries)` loop of
`_save_session_messages`, driven by the list of remaining attempt
indices.  `faults a = true` means attempt `a` raises a transient store
error (no partial write); on a fault with retries left the loop sleeps
`retry_delay * (attempt + 1)` = `0.5 * (a + 1)` seconds and retries; on
the last attempt the exception propagates to the outer handler, which
returns `False`.  A successful attempt re-fetches the session, rebuilds
the message list from the validated input, truncates to the cap, stamps
`updated` and saves. -/
def saveLoop (faults : Nat → Bool) (times : Nat → String) (cap : Nat)
    (sid : String) (msgs : List MsgIn) (store : String → Option SessionRec) :
    List Nat → SaveResult
  | [] => ⟨false, store, [], 0, 0⟩
  | a :: rest =>
    if faults a then
      if rest.isEmpty then ⟨false, store, [], 1, 1⟩
      else
        let r := saveLoop faults times cap sid msgs store rest
        ⟨r.ok, r.store, (1/2 : ℚ) * (a + 1) :: r.sleeps, r.attempts + 1,
          r.fetches + 1⟩
    else
      match store sid with
      | none => ⟨false, store, [], 1, 1⟩
      | some _ =>
        let valid := msgs.filterMap (processMsg (times a))
        if valid.isEmpty then ⟨false, store, [], 1, 1⟩
        else
          let final := truncateCap cap valid
          ⟨true, storeSet store sid ⟨final, times a⟩, [], 1, 1⟩

/-- The helper `_save_session_messages(session_id, messages)` (the embedding keeps
the store, fault schedule and per-attempt clock explicit): empty input
returns `False` immediately; otherwise up to three attempts run. -/
def saveSessionMessages (faults : Nat → Bool) (times : Nat → String)
    (cap : Nat) (sid : String) (msgs : List MsgIn)
    (store : String → Option SessionRec) : SaveResult :=
  if msgs.isEmpty then ⟨false, store, [], 0, 0⟩
  else saveLoop faults times cap sid msgs store [0, 1, 2]

/-- The user-message append path of `send_message`: the new message is
appended to `chat_session.messages` and the whole list is persisted by
`chat_session.save()`.  Modelled from the spec for the missing
`DomainChatSession.save`: a whole-record replace that stores the list
exactly as given — the truncation logic of the repository lives only in
`_save_session_messages`, which this path does not call. -/
def sendMessageAppendUser (sessionMsgs : List Msg) (m : Msg) : List Msg :=
  sessionMsgs ++ [m]

/-- A sample user message used for concrete evaluations. -/
def mkUserMsg (n : Nat) : Msg :=
  ⟨"m" ++ toString n, "text", "user", "c" ++ toString n, "t", []⟩

/-- Outcome of `chat_graph.invoke` as the handler sees it: a produced
content string, or an exception with text `err`. -/
inductive GenOutcome where
  | success (content : String)
  | failure (err : String)
  deriving Repr, DecidableEq

/-- The prefix of the human-readable error content
(an f-string over str(e) in the code). -/
def errorLead : String := "I\x27m sorry, I encountered an error: "

/-- The dict payloads `send_message` hands to
`connection_manager.broadcast`, by shape: a flat message dict with
top-level `id`/`role`/`content`/`timestamp`; the generation-failure dict
`\x7b"event": "error", "message": ...\x7d`; the completion dict
`\x7b"event": "message_complete", "message": ...\x7d`; and the outer
outer-handler error dict. -/
inductive BPayload where
  | flat (id role content timestamp : String)
  | genError (message : Msg)
  | messageComplete (message : Msg)
  | outerError (message : Msg) (error : String)
  deriving Repr, DecidableEq

/-- The four top-level keys `event_generator` reads from a payload: only
the `flat` shape carries them — the wrapped shapes nest the message under
the unread `message` key. -/
def toEventDict : BPayload → EventDict
  | .flat i r c t => ⟨some i, some r, some c, some t⟩
  | .genError _ => ⟨none, none, none, none⟩
  | .messageComplete _ => ⟨none, none, none, none⟩
  | .outerError _ _ => ⟨none, none, none, none⟩

/-- The update `if chat_session.messages and chat_session.messages[-1]["id"] ==
ai_message_id: chat_session.messages[-1] = ai_message else: append`. -/
def replaceLastById (msgs : List Msg) (aiId : String) (m : Msg) : List Msg :=
  match msgs.getLast? with
  | some last => if last.id = aiId then msgs.dropLast ++ [m] else msgs ++ [m]
  | none => msgs ++ [m]

/-- Observable outcome of the generation phase of `send_message`: the
list persisted before the engine is invoked, the final message list, the
successive persisted lists, the broadcast payloads in order, and the HTTP
outcome (`ok content` for a 200 response, `error code` when an
HTTPException escapes). -/
structure SendOutcome where
  savedBeforeGen : List Msg
  finalMessages : List Msg
  saves : List (List Msg)
  broadcasts : List BPayload
  http : Except Nat String

/-- The assistant-generation phase of `send_message` (lines 555–666 and
the outer handler): an empty-content placeholder with id `aiId` is
appended and the session saved before `chat_graph.invoke`; on failure the
placeholder content becomes the human-readable error string with
`metadata["error"] = str(e)`, an error payload and then the completion
payload are broadcast, the final list is saved and the request still
returns 200; on success with non-blank content the placeholder is
replaced in place (matched by id against the last element) and the
completion payload broadcast; on success with blank content the unbound
`response_content` read raises `NameError`, caught by the outer handler,
which appends a fresh error message with `metadata = \x7b"error": True\x7d`,
saves, broadcasts, and fails with HTTP 500. -/
def generationPhase (msgs : List Msg) (aiId t0 t1 errId t2 : String)
    (gen : GenOutcome) : SendOutcome :=
  let ai0 : Msg := ⟨aiId, "text", "assistant", "", t0, []⟩
  let msgs1 := msgs ++ [ai0]
  match gen with
  | .failure err =>
    let errMsg := errorLead ++ err
    let ai1 : Msg := ⟨aiId, "text", "assistant", errMsg, t0,
      [("error", MetaVal.vStr err)]⟩
    let ai2 : Msg := ⟨aiId, "text", "assistant", errMsg, t1,
      [("error", MetaVal.vStr err)]⟩
    let final := replaceLastById msgs1 aiId ai2
    ⟨msgs1, final, [msgs1, final],
      [.genError ai1, .messageComplete ai2], .ok errMsg⟩
  | .success content =>
    if pyStrip content = "" then
      let eText := "name \x27response_content\x27 is not defined"
      let em : Msg := ⟨errId, "ai", "assistant", errorLead ++ eText, t2,
        [("error", MetaVal.vBool true)]⟩
      let final := msgs1 ++ [em]
      ⟨msgs1, final, [msgs1, final], [.outerError em eText], .error 500⟩
    else
      let ai2 : Msg := ⟨aiId, "text", "assistant", content, t1, []⟩
      let final := replaceLastById msgs1 aiId ai2
      ⟨msgs1, final, [msgs1, final],
        [.flat aiId "assistant" content t0, .messageComplete ai2],
        .ok content⟩

/-- A notebook record. -/
structure Notebook where
  id : String
  name : String
  deriving Repr, DecidableEq

/-- The body of `get_notebook_by_name_or_id` inside its `try`: cache hit
first; a by-id lookup when the identifier contains a colon; otherwise a
scan of all notebooks by name; falling through raises HTTPException(404).
(The function also writes back to the cache; only reads matter here.) -/
def getNotebookInner (cache : List (String × Notebook))
    (getById : String → Option Notebook) (allNotebooks : List Notebook)
    (identifier : String) : Except Nat Notebook :=
  match lookupA cache identifier with
  | some nb => .ok nb
  | none =>
    match (if ':' ∈ identifier.data then getById identifier else none) with
    | some nb => .ok nb
    | none =>
      match allNotebooks.find? (fun nb => nb.name == identifier) with
      | some nb => .ok nb
      | none => .error 404

/-- The helper `get_notebook_by_name_or_id`: the surrounding `except Exception`
catches every failure — including the 404 HTTPException the body itself
raised — and re-raises HTTPException(500, "Error finding notebook"). -/
def get_notebook_by_name_or_id (cache : List (String × Notebook))
    (getById : String → Option Notebook) (allNotebooks : List Notebook)
    (identifier : String) : Except Nat Notebook :=
  match getNotebookInner cache getById allNotebooks identifier with
  | .ok nb => .ok nb
  | .error _ => .error 500

/-- A chat-session record for the orchestrator.  Modelled from the spec
for the missing `DomainChatSession`: identifier, title, `updated` stamp
(totally ordered), messages, the notebook reference recorded in metadata,
and the stored notebook relation (`relate_to_notebook`). -/
structure ChatSessionRec where
  id : String
  title : String
  updated : Nat
  messages : List Msg
  metaNotebookId : Option String
  relatedTo : Option String
  deriving Repr, DecidableEq

/-- The Session Store operations the orchestrator consumes.  Modelled
from the spec: `get(id) → Session|absent`, `findByTitle(title) →
[Session]`. -/
structure SessionStore where
  getById : String → Option ChatSessionRec
  findByTitle : String → List ChatSessionRec

/-- Python `max(sessions, key=lambda s: s.updated)`: the first element
with the largest key (later elements replace only on strictly greater). -/
def maxByUpdated : List ChatSessionRec → Option ChatSessionRec
  | [] => none
  | s :: rest =>
    some (rest.foldl (fun cur x => if cur.updated < x.updated then x else cur) s)

/-- How `get_or_create_chat_session` returned: an existing session, or a
freshly created one. -/
inductive SessionResult where
  | found (s : ChatSessionRec)
  | created (s : ChatSessionRec)
  deriving Repr, DecidableEq

/-- The helper `get_or_create_chat_session(notebook_id, session_identifier,
session_name)`: an identifier containing a colon is first resolved by id;
otherwise (or when that misses) it is treated as a title and the
most-recently-updated session with that title is returned; with no
resolvable identifier a new session is created — title `session_name`
stripped when non-blank, else `"Chat Session - " + timestamp` — after the
notebook is resolved (a missing notebook makes the helper raise 500,
which the surrounding handler re-raises as 500), persisted with the
notebook id in its metadata and related to the notebook. -/
def get_or_create_chat_session (store : SessionStore)
    (cache : List (String × Notebook)) (nbGetById : String → Option Notebook)
    (allNotebooks : List Notebook) (notebook_id : String)
    (session_identifier : Option String) (session_name : Option String)
    (nowStamp : String) (newId : String) (nowUpdated : Nat) :
    Except Nat SessionResult :=
  let resolved : Option ChatSessionRec :=
    match session_identifier with
    | some sid =>
      if sid = "" then none
      else
        match (if ':' ∈ sid.data then store.getById sid else none) with
        | some s => some s
        | none => maxByUpdated (store.findByTitle sid)
    | none => none
  match resolved with
  | some s => .ok (.found s)
  | none =>
    let title :=
      match session_name with
      | some n => if pyStrip n = "" then "Chat Session - " ++ nowStamp else pyStrip n
      | none => "Chat Session - " ++ nowStamp
    match get_notebook_by_name_or_id cache nbGetById allNotebooks notebook_id with
    | .error _ => .error 500
    | .ok nb =>
      .ok (.created ⟨newId, title, nowUpdated, [], some notebook_id, some nb.id⟩)


/-- Sample stored sessions and store for concrete evaluations: two
sessions titled `"Test"`, the second more recently updated. -/
def sampleSessionA : ChatSessionRec := ⟨"cs:1", "Test", 5, [], none, none⟩

/-- See `sampleSessionA`. -/
def sampleSessionB : ChatSessionRec := ⟨"cs:2", "Test", 9, [], none, none⟩

/-- A concrete Session Store over the two sample sessions. -/
def sampleSessionStore : SessionStore :=
  ⟨fun i => if i = "cs:1" then some sampleSessionA else none,
   fun t => if t = "Test" then [sampleSessionA, sampleSessionB] else []⟩

/-- A concrete notebook named `"nb1"`. -/
def sampleNotebook : Notebook := ⟨"nb:1", "nb1"⟩

section AssocLemmas

variable {α β : Type}

theorem lookupA_setKey_self {c : List (String × β)} {s : String} {w : β} (v : β)
    (h : lookupA c s = some w) : lookupA (setKey c s v) s = some v := by
  induction c with
  | nil => simp [lookupA] at h
  | cons p rest ih =>
    obtain ⟨k, u⟩ := p
    by_cases hk : k = s
    · simp [lookupA, setKey, hk]
    · simp [lookupA, setKey, hk] at h ⊢
      exact ih h

theorem lookupA_setKey_ne {c : List (String × β)} {s s' : String} (v : β)
    (h : s' ≠ s) : lookupA (setKey c s v) s' = lookupA c s' := by
  induction c with
  | nil => simp [setKey]
  | cons p rest ih =>
    obtain ⟨k, u⟩ := p
    by_cases hk : k = s
    · subst hk
      simp [lookupA, setKey, (by simpa using (Ne.symm h) : ¬ k = s')]
    · by_cases hk' : k = s'
      · simp [lookupA, setKey, hk, hk', h]
      · simp [lookupA, setKey, hk, hk', ih]

theorem setKey_self_id {c : List (String × β)} {s : String} {v : β}
    (h : lookupA c s = some v) : setKey c s v = c := by
  induction c with
  | nil => simp [lookupA] at h
  | cons p rest ih =>
    obtain ⟨k, u⟩ := p
    by_cases hk : k = s
    · subst hk
      simp [lookupA] at h
      simp [setKey, h]
    · simp [lookupA, hk] at h
      simp [setKey, hk, ih h]

theorem keys_setKey (c : List (String × β)) (s : String) (v : β) :
    (setKey c s v).map Prod.fst = c.map Prod.fst := by
  induction c with
  | nil => simp [setKey]
  | cons p rest ih =>
    obtain ⟨k, u⟩ := p
    by_cases hk : k = s <;> simp [setKey, hk, ih]

theorem mem_setKey {c : List (String × β)} {s : String} {v : β} {p : String × β}
    (h : p ∈ setKey c s v) : p ∈ c ∨ p.2 = v := by
  induction c with
  | nil => simp [setKey] at h
  | cons q rest ih =>
    obtain ⟨k, u⟩ := q
    by_cases hk : k = s
    · simp [setKey, hk] at h
      rcases h with h | h
      · exact Or.inr (by simp [h])
      · exact Or.inl (by simp [h])
    · simp [setKey, hk] at h
      rcases h with h | h
      · exact Or.inl (by simp [h])
      · rcases ih h with h' | h'
        · exact Or.inl (List.mem_cons_of_mem _ h')
        · exact Or.inr h'

theorem eraseKey_sublist (c : List (String × β)) (s : String) :
    List.Sublist (eraseKey c s) c := by
  induction c with
  | nil => simp [eraseKey]
  | cons p rest ih =>
    obtain ⟨k, u⟩ := p
    by_cases hk : k = s
    · simp [eraseKey, hk]
    · simp [eraseKey, hk]
      exact ih

theorem lookupA_eq_none {c : List (String × β)} {s : String}
    (h : s ∉ c.map Prod.fst) : lookupA c s = none := by
  induction c with
  | nil => rfl
  | cons p rest ih =>
    obtain ⟨k, u⟩ := p
    rw [List.map_cons] at h
    have hk : ¬ k = s := fun he => h (he ▸ List.mem_cons_self _ _)
    have h2 : s ∉ rest.map Prod.fst := fun hm => h (List.mem_cons_of_mem _ hm)
    simp [lookupA, hk]
    exact ih h2

theorem lookupA_eraseKey_self {c : List (String × β)} {s : String}
    (hnd : (c.map Prod.fst).Nodup) : lookupA (eraseKey c s) s = none := by
  induction c with
  | nil => simp [eraseKey, lookupA]
  | cons p rest ih =>
    obtain ⟨k, u⟩ := p
    rw [List.map_cons, List.nodup_cons] at hnd
    by_cases hk : k = s
    · subst hk
      simp [eraseKey]
      exact lookupA_eq_none hnd.1
    · simp [eraseKey, hk, lookupA]
      exact ih hnd.2

theorem lookupA_eraseKey_ne {c : List (String × β)} {s s' : String}
    (h : s' ≠ s) : lookupA (eraseKey c s) s' = lookupA c s' := by
  induction c with
  | nil => simp [eraseKey]
  | cons p rest ih =>
    obtain ⟨k, u⟩ := p
    by_cases hk : k = s
    · subst hk
      simp [eraseKey, lookupA, (by simpa using (Ne.symm h) : ¬ k = s')]
    · by_cases hk' : k = s'
      · simp [eraseKey, hk, lookupA, hk', h]
      · simp [eraseKey, hk, lookupA, hk', ih]

theorem lookupA_appendQueue_self (c : List (String × List (Queue α))) (s : String)
    (q : Queue α) :
    lookupA (appendQueue c s q) s = some ((lookupA c s).getD [] ++ [q]) := by
  induction c with
  | nil => simp [appendQueue, lookupA]
  | cons p rest ih =>
    obtain ⟨k, u⟩ := p
    by_cases hk : k = s
    · simp [appendQueue, hk, lookupA]
    · simp [appendQueue, hk, lookupA, ih]

theorem lookupA_appendQueue_ne {c : List (String × List (Queue α))} {s s' : String}
    (q : Queue α) (h : s' ≠ s) :
    lookupA (appendQueue c s q) s' = lookupA c s' := by
  induction c with
  | nil => simp [appendQueue, lookupA, (by simpa using Ne.symm h : ¬ s = s')]
  | cons p rest ih =>
    obtain ⟨k, u⟩ := p
    by_cases hk : k = s
    · subst hk
      simp [appendQueue, lookupA, (by simpa using (Ne.symm h) : ¬ k = s')]
    · by_cases hk' : k = s'
      · simp [appendQueue, hk, lookupA, hk', h]
      · simp [appendQueue, hk, lookupA, hk', ih]

theorem keys_appendQueue (c : List (String × List (Queue α))) (s : String)
    (q : Queue α) :
    (appendQueue c s q).map Prod.fst =
      if s ∈ c.map Prod.fst then c.map Prod.fst else c.map Prod.fst ++ [s] := by
  induction c with
  | nil => simp [appendQueue]
  | cons p rest ih =>
    obtain ⟨k, u⟩ := p
    by_cases hk : k = s
    · simp [appendQueue, hk]
    · have hns : ¬ s = k := fun he => hk he.symm
      by_cases hmem : s ∈ rest.map Prod.fst
      · simp [appendQueue, hk, ih, hns, hmem]
      · simp [appendQueue, hk, ih, hns, hmem]

theorem keys_appendQueue_nodup {c : List (String × List (Queue α))} {s : String}
    (q : Queue α) (h : (c.map Prod.fst).Nodup) :
    ((appendQueue c s q).map Prod.fst).Nodup := by
  rw [keys_appendQueue]
  by_cases hmem : s ∈ c.map Prod.fst
  · simpa [hmem] using h
  · simp only [hmem, if_false]
    rw [List.nodup_append]
    refine ⟨h, List.nodup_singleton _, ?_⟩
    intro a ha hs
    rw [List.mem_singleton] at hs
    exact hmem (hs ▸ ha)

theorem mem_appendQueue {c : List (String × List (Queue α))} {s : String}
    {q : Queue α} {p : String × List (Queue α)} (h : p ∈ appendQueue c s q) :
    p ∈ c ∨ p.2 = [q] ∨ ∃ p' ∈ c, p.2 = p'.2 ++ [q] := by
  induction c with
  | nil =>
    simp [appendQueue] at h
    exact Or.inr (Or.inl (by simp [h]))
  | cons r rest ih =>
    obtain ⟨k, u⟩ := r
    by_cases hk : k = s
    · simp [appendQueue, hk] at h
      rcases h with h | h
      · exact Or.inr (Or.inr ⟨(k, u), by simp, by simp [h]⟩)
      · exact Or.inl (List.mem_cons_of_mem _ h)
    · simp [appendQueue, hk] at h
      rcases h with h | h
      · exact Or.inl (by simp [h])
      · rcases ih h with h' | h' | ⟨p', hp', he⟩
        · exact Or.inl (List.mem_cons_of_mem _ h')
        · exact Or.inr (Or.inl h')
        · exact Or.inr (Or.inr ⟨p', List.mem_cons_of_mem _ hp', he⟩)

theorem removeQ_sublist (qs : List (Queue α)) (i : Nat) :
    List.Sublist (removeQ qs i) qs := by
  induction qs with
  | nil => simp [removeQ]
  | cons q rest ih =>
    by_cases hq : q.qid = i
    · simp [removeQ, hq]
    · simp [removeQ, hq]
      exact ih

theorem removeQ_length {qs : List (Queue α)} {i : Nat}
    (h : i ∈ qs.map Queue.qid) : (removeQ qs i).length + 1 = qs.length := by
  induction qs with
  | nil => simp at h
  | cons q rest ih =>
    by_cases hq : q.qid = i
    · simp [removeQ, hq]
    · rw [List.map_cons, List.mem_cons] at h
      rcases h with h | h
      · exact absurd h.symm hq
      · have := ih h
        simp [removeQ, hq]
        omega

theorem removeQ_of_not_mem {qs : List (Queue α)} {i : Nat}
    (h : i ∉ qs.map Queue.qid) : removeQ qs i = qs := by
  induction qs with
  | nil => simp [removeQ]
  | cons q rest ih =>
    rw [List.map_cons] at h
    have h1 : ¬ q.qid = i := fun he => h (he ▸ List.mem_cons_self _ _)
    have h2 : i ∉ rest.map Queue.qid := fun hm => h (List.mem_cons_of_mem _ hm)
    simp [removeQ, h1, ih h2]

theorem putIfRoom_qid (e : α) (q : Queue α) : (putIfRoom e q).qid = q.qid := by
  by_cases h : q.items.length < queueCapacity <;> simp [putIfRoom, h]

theorem map_qid_putIfRoom (e : α) (qs : List (Queue α)) :
    (qs.map (putIfRoom e)).map Queue.qid = qs.map Queue.qid := by
  simp [List.map_map, Function.comp_def, putIfRoom_qid]

theorem mem_of_lookupA {c : List (String × β)} {s : String} {v : β}
    (h : lookupA c s = some v) : (s, v) ∈ c := by
  induction c with
  | nil => simp [lookupA] at h
  | cons p rest ih =>
    obtain ⟨k, u⟩ := p
    by_cases hk : k = s
    · subst hk
      simp [lookupA] at h
      simp [h]
    · simp [lookupA, hk] at h
      exact List.mem_cons_of_mem _ (ih h)

end AssocLemmas

section InvPreservation

variable {α : Type}

theorem inv_connect {cm : ConnectionManager α} (h : Inv cm) (sid : String) :
    Inv (connect cm sid).1 := by
  obtain ⟨hnk, hne, hfr, huq⟩ := h
  refine ⟨keys_appendQueue_nodup _ hnk, ?_, ?_, ?_⟩
  · intro p hp
    rcases mem_appendQueue hp with h' | h' | ⟨p', _, h'⟩
    · exact hne p h'
    · simp [h']
    · simp [h']
  · intro p hp q hq
    rcases mem_appendQueue hp with h' | h' | ⟨p', hp', h'⟩
    · exact Nat.lt_succ_of_lt (hfr p h' q hq)
    · rw [h'] at hq
      simp at hq
      simp [connect, hq]
    · rw [h'] at hq
      rw [List.mem_append] at hq
      rcases hq with hq | hq
      · exact Nat.lt_succ_of_lt (hfr p' hp' q hq)
      · simp at hq
        simp [connect, hq]
  · intro p hp
    rcases mem_appendQueue hp with h' | h' | ⟨p', hp', h'⟩
    · exact huq p h'
    · simp [h']
    · rw [h', List.map_append]
      rw [List.nodup_append]
      refine ⟨huq p' hp', by simp, ?_⟩
      intro a ha hs
      simp at hs
      rw [List.mem_map] at ha
      obtain ⟨q, hq, rfl⟩ := ha
      exact absurd hs (Nat.ne_of_lt (hfr p' hp' q hq))

theorem inv_disconnect {cm : ConnectionManager α} (h : Inv cm) (sid : String)
    (i : Nat) : Inv (disconnect cm sid i) := by
  obtain ⟨hnk, hne, hfr, huq⟩ := h
  unfold disconnect
  cases hl : lookupA cm.conns sid with
  | none => exact ⟨hnk, hne, hfr, huq⟩
  | some qs =>
    simp only []
    by_cases he : (removeQ qs i).isEmpty
    · simp [he]
      refine ⟨((eraseKey_sublist _ _).map Prod.fst).nodup hnk, ?_, ?_, ?_⟩
      · exact fun p hp => hne p ((eraseKey_sublist _ _).subset hp)
      · exact fun p hp => hfr p ((eraseKey_sublist _ _).subset hp)
      · exact fun p hp => huq p ((eraseKey_sublist _ _).subset hp)
    · simp [he]
      have hmemqs : (sid, qs) ∈ cm.conns := mem_of_lookupA hl
      refine ⟨by rw [keys_setKey]; exact hnk, ?_, ?_, ?_⟩
      · intro p hp
        rcases mem_setKey hp with h' | h'
        · exact hne p h'
        · rw [h']
          intro hnil
          rw [hnil] at he
          simp at he
      · intro p hp q hq
        rcases mem_setKey hp with h' | h'
        · exact hfr p h' q hq
        · rw [h'] at hq
          exact hfr (sid, qs) hmemqs q ((removeQ_sublist qs i).subset hq)
      · intro p hp
        rcases mem_setKey hp with h' | h'
        · exact huq p h'
        · rw [h']
          exact ((removeQ_sublist qs i).map Queue.qid).nodup (huq (sid, qs) hmemqs)

theorem inv_broadcast {cm : ConnectionManager α} (h : Inv cm) (sid : String)
    (e : α) : Inv (broadcast cm sid e) := by
  obtain ⟨hnk, hne, hfr, huq⟩ := h
  unfold broadcast
  cases hl : lookupA cm.conns sid with
  | none => exact ⟨hnk, hne, hfr, huq⟩
  | some qs =>
    have hmemqs : (sid, qs) ∈ cm.conns := mem_of_lookupA hl
    refine ⟨by rw [keys_setKey]; exact hnk, ?_, ?_, ?_⟩
    · intro p hp
      rcases mem_setKey hp with h' | h'
      · exact hne p h'
      · rw [h']
        intro hnil
        rw [List.map_eq_nil_iff] at hnil
        exact hne (sid, qs) hmemqs hnil
    · intro p hp q hq
      rcases mem_setKey hp with h' | h'
      · exact hfr p h' q hq
      · rw [h'] at hq
        rw [List.mem_map] at hq
        obtain ⟨q', hq', rfl⟩ := hq
        rw [putIfRoom_qid]
        exact hfr (sid, qs) hmemqs q' hq'
    · intro p hp
      rcases mem_setKey hp with h' | h'
      · exact huq p h'
      · rw [h', map_qid_putIfRoom]
        exact huq (sid, qs) hmemqs

theorem inv_step {cm : ConnectionManager α} (h : Inv cm) (op : Op α) :
    Inv (step cm op) := by
  cases op with
  | connect sid => exact inv_connect h sid
  | disconnect sid i => exact inv_disconnect h sid i
  | broadcast sid e => exact inv_broadcast h sid e

theorem inv_run {cm : ConnectionManager α} (h : Inv cm) (ops : List (Op α)) :
    Inv (run cm ops) := by
  induction ops generalizing cm with
  | nil => exact h
  | cons op rest ih => exact ih (inv_step h op)

end InvPreservation

section Delivery

variable {α : Type}

theorem findQ_map_putIfRoom {qs : List (Queue α)} {i : Nat} {q : Queue α}
    (e : α) (h : findQ qs i = some q) :
    findQ (qs.map (putIfRoom e)) i = some (putIfRoom e q) := by
  induction qs with
  | nil => simp [findQ] at h
  | cons q' rest ih =>
    by_cases hq : q'.qid = i
    · simp [findQ, hq] at h
      subst h
      simp [findQ, putIfRoom_qid, hq]
    · simp [findQ, hq] at h
      simp [findQ, putIfRoom_qid, hq]
      exact ih h

theorem findQ_none_of_not_mem {qs : List (Queue α)} {i : Nat}
    (h : i ∉ qs.map Queue.qid) : findQ qs i = none := by
  induction qs with
  | nil => rfl
  | cons q rest ih =>
    rw [List.map_cons] at h
    have h1 : ¬ q.qid = i := fun he => h (he ▸ List.mem_cons_self _ _)
    have h2 : i ∉ rest.map Queue.qid := fun hm => h (List.mem_cons_of_mem _ hm)
    simp [findQ, h1]
    exact ih h2

theorem findQ_append_fresh {qs : List (Queue α)} {q : Queue α}
    (h : q.qid ∉ qs.map Queue.qid) : findQ (qs ++ [q]) q.qid = some q := by
  induction qs with
  | nil => simp [findQ]
  | cons q' rest ih =>
    rw [List.map_cons] at h
    have h1 : ¬ q'.qid = q.qid := fun he => h (he ▸ List.mem_cons_self _ _)
    have h2 : q.qid ∉ rest.map Queue.qid := fun hm => h (List.mem_cons_of_mem _ hm)
    simp [findQ, h1]
    exact ih h2

/-- If the session has an entry, broadcast rewrites that entry by
`putIfRoom`; the subscriber with identity `i` ends with `items ++ [e]`
when it had room. -/
theorem itemsOf_broadcast_room {cm : ConnectionManager α} {sid : String}
    {i : Nat} {w : List α} (e : α) (hv : itemsOf cm sid i = some w)
    (hroom : w.length < queueCapacity) :
    itemsOf (broadcast cm sid e) sid i = some (w ++ [e]) := by
  unfold itemsOf queuesOf at hv ⊢
  cases hl : lookupA cm.conns sid with
  | none => rw [hl] at hv; simp [findQ] at hv
  | some qs =>
    rw [hl] at hv
    simp only [Option.getD_some] at hv
    cases hf : findQ qs i with
    | none => rw [hf] at hv; simp at hv
    | some q =>
      rw [hf] at hv
      simp at hv
      unfold broadcast
      rw [hl]
      simp only []
      rw [lookupA_setKey_self _ hl]
      simp only [Option.getD_some]
      rw [findQ_map_putIfRoom e hf]
      simp [putIfRoom, hv, hroom]

/-- A full queue drops the event: its contents are unchanged. -/
theorem itemsOf_broadcast_full {cm : ConnectionManager α} {sid : String}
    {i : Nat} {w : List α} (e : α) (hv : itemsOf cm sid i = some w)
    (hfull : queueCapacity ≤ w.length) :
    itemsOf (broadcast cm sid e) sid i = some w := by
  unfold itemsOf queuesOf at hv ⊢
  cases hl : lookupA cm.conns sid with
  | none => rw [hl] at hv; simp [findQ] at hv
  | some qs =>
    rw [hl] at hv
    simp only [Option.getD_some] at hv
    cases hf : findQ qs i with
    | none => rw [hf] at hv; simp at hv
    | some q =>
      rw [hf] at hv
      simp at hv
      unfold broadcast
      rw [hl]
      simp only []
      rw [lookupA_setKey_self _ hl]
      simp only [Option.getD_some]
      rw [findQ_map_putIfRoom e hf]
      simp [putIfRoom, hv, Nat.not_lt.mpr hfull]

/-- Sessions other than the broadcast target are untouched. -/
theorem broadcast_other_session {cm : ConnectionManager α} {sid sid' : String}
    (e : α) (h : sid' ≠ sid) :
    lookupA (broadcast cm sid e).conns sid' = lookupA cm.conns sid' := by
  unfold broadcast
  cases hl : lookupA cm.conns sid with
  | none => rfl
  | some qs =>
    simp only []
    exact lookupA_setKey_ne _ h

/-- A queue created by `connect` starts empty. -/
theorem itemsOf_connect_fresh {cm : ConnectionManager α} (h : Inv cm)
    (sid : String) :
    itemsOf (connect cm sid).1 sid cm.nextId = some [] := by
  unfold itemsOf queuesOf connect
  simp only []
  rw [lookupA_appendQueue_self]
  simp only [Option.getD_some]
  have hfresh : cm.nextId ∉ ((lookupA cm.conns sid).getD []).map Queue.qid := by
    cases hl : lookupA cm.conns sid with
    | none => simp
    | some qs =>
      simp only [Option.getD_some]
      intro hmem
      rw [List.mem_map] at hmem
      obtain ⟨q, hq, hqe⟩ := hmem
      exact absurd hqe
        (Nat.ne_of_lt (h.2.2.1 (sid, qs) (mem_of_lookupA hl) q hq))
  rw [findQ_append_fresh hfresh]
  rfl

theorem setKey_map_qid {c : List (String × List (Queue α))} {sid : String}
    {qs : List (Queue α)} (e : α) (hl : lookupA c sid = some qs) :
    (setKey c sid (qs.map (putIfRoom e))).map (fun p => (p.1, p.2.map Queue.qid)) =
      c.map (fun p => (p.1, p.2.map Queue.qid))  := by
  induction c with
  | nil => simp [lookupA] at hl
  | cons p rest ih =>
    obtain ⟨k, u⟩ := p
    by_cases hk : k = sid
    · subst hk
      simp [lookupA] at hl
      subst hl
      simp [setKey, map_qid_putIfRoom, putIfRoom_qid]
    · simp [lookupA, hk] at hl
      simp [setKey, hk, ih hl]

/-- Broadcast changes neither the session keys nor the registered queue
identities: no subscriber is added or removed. -/
theorem broadcast_membership {cm : ConnectionManager α} (sid : String) (e : α) :
    (broadcast cm sid e).conns.map (fun p => (p.1, p.2.map Queue.qid)) =
      cm.conns.map (fun p => (p.1, p.2.map Queue.qid)) := by
  unfold broadcast
  cases hl : lookupA cm.conns sid with
  | none => rfl
  | some qs =>
    simp only []
    exact setKey_map_qid e hl

end Delivery

section Traces

variable {α : Type}

/-- Repeated broadcasts to one session append the events, in call order,
to the queue of a registered subscriber while it has room. -/
theorem itemsOf_run_broadcasts {cm : ConnectionManager α} {sid : String}
    {i : Nat} {v : List α} (es : List α)
    (hv : itemsOf cm sid i = some v)
    (hroom : v.length + es.length ≤ queueCapacity) :
    itemsOf (run cm (es.map (Op.broadcast sid))) sid i = some (v ++ es) := by
  induction es generalizing cm v with
  | nil => simpa using hv
  | cons e rest ih =>
    have hlen : v.length < queueCapacity := by
      simp at hroom
      omega
    have h1 := itemsOf_broadcast_room e hv hlen
    have h2 := ih h1 (by simp at hroom ⊢; omega)
    simpa [run, step, List.append_assoc] using h2

theorem run_broadcasts_other_session {cm : ConnectionManager α}
    {sid sid' : String} (es : List α) (h : sid' ≠ sid) :
    lookupA (run cm (es.map (Op.broadcast sid))).conns sid' =
      lookupA cm.conns sid' := by
  induction es generalizing cm with
  | nil => rfl
  | cons e rest ih =>
    rw [List.map_cons, run]
    rw [ih]
    exact broadcast_other_session e h

end Traces

/-- Claim C1: for every session `sid` and sequence of events `es` broadcast
to `sid`, a subscriber registered for `sid` at broadcast time (queue
identity `i`, current contents `v`, with room for all of `es`) has the
events enqueued in broadcast-call order (`v ++ es`, FIFO, which is the
order its stream emits the frames); the registry entries of every other
session identifier are untouched by those broadcasts; and a subscriber
that connects after the broadcasts starts with an empty queue (no
replay). -/
theorem C1_broadcast_fanout (α : Type) (cm : ConnectionManager α)
    (sid : String) (i : Nat) (v : List α) (es : List α) (h : Inv cm)
    (hv : itemsOf cm sid i = some v)
    (hroom : v.length + es.length ≤ queueCapacity) :
    itemsOf (run cm (es.map (Op.broadcast sid))) sid i = some (v ++ es) ∧
    (∀ sid', sid' ≠ sid →
      lookupA (run cm (es.map (Op.broadcast sid))).conns sid' =
        lookupA cm.conns sid') ∧
    itemsOf ((connect (run cm (es.map (Op.broadcast sid))) sid).1) sid
      (run cm (es.map (Op.broadcast sid))).nextId = some [] := by
  refine ⟨itemsOf_run_broadcasts es hv hroom, ?_, ?_⟩
  · intro sid' hne
    exact run_broadcasts_other_session es hne
  · exact itemsOf_connect_fresh (inv_run h (es.map (Op.broadcast sid))) sid

theorem C1_broadcast_fanout_witness :
    itemsOf (run ((connect (emptyCM Nat) "s1").1)
        ([7, 8, 9].map (Op.broadcast "s1"))) "s1" 0 = some [7, 8, 9] ∧
    lookupA (run ((connect (emptyCM Nat) "s1").1)
        ([7, 8, 9].map (Op.broadcast "s1"))).conns "s2" =
      lookupA ((connect (emptyCM Nat) "s1").1).conns "s2" ∧
    itemsOf ((connect (run ((connect (emptyCM Nat) "s1").1)
        ([7, 8, 9].map (Op.broadcast "s1"))) "s1").1) "s1"
      (run ((connect (emptyCM Nat) "s1").1)
        ([7, 8, 9].map (Op.broadcast "s1"))).nextId = some [] := by
  obtain ⟨h1, h2, h3⟩ := C1_broadcast_fanout Nat ((connect (emptyCM Nat) "s1").1)
    "s1" 0 [] [7, 8, 9] (by unfold Inv; decide) (by decide) (by decide)
  exact ⟨by simpa using h1, h2 "s2" (by decide), h3⟩

/-- Claim C2: `broadcast` is a total function of the registry state (it
never blocks and never signals an error to the caller); when the
queue of the identified subscriber is full (capacity 100) the event is dropped
for that subscriber only — its contents are unchanged — while every other
subscriber of the same session with room receives the event appended, and
broadcast neither adds nor removes any registered subscriber of any
session. -/
theorem C2_broadcast_full_drop (α : Type) (cm : ConnectionManager α)
    (sid : String) (i : Nat) (w : List α) (e : α)
    (hfull : itemsOf cm sid i = some w) (hw : queueCapacity ≤ w.length) :
    itemsOf (broadcast cm sid e) sid i = some w ∧
    (∀ j w', itemsOf cm sid j = some w' → w'.length < queueCapacity →
      itemsOf (broadcast cm sid e) sid j = some (w' ++ [e])) ∧
    (broadcast cm sid e).conns.map (fun p => (p.1, p.2.map Queue.qid)) =
      cm.conns.map (fun p => (p.1, p.2.map Queue.qid)) := by
  refine ⟨itemsOf_broadcast_full e hfull hw, ?_, broadcast_membership sid e⟩
  intro j w' h1 h2
  exact itemsOf_broadcast_room e h1 h2

theorem C2_broadcast_full_drop_witness :
    itemsOf (broadcast cmFullExample "s1" 5) "s1" 0 =
      some (List.replicate 100 0) ∧
    itemsOf (broadcast cmFullExample "s1" 5) "s1" 1 = some [5] ∧
    (broadcast cmFullExample "s1" 5).conns.map
        (fun p => (p.1, p.2.map Queue.qid)) =
      cmFullExample.conns.map (fun p => (p.1, p.2.map Queue.qid)) := by
  obtain ⟨h1, h2, h3⟩ := C2_broadcast_full_drop Nat cmFullExample "s1" 0
    (List.replicate 100 0) 5 (by decide) (by decide)
  exact ⟨h1, by simpa using h2 1 [] (by decide) (by decide), h3⟩

/-- Claim C3: after every sequence of connect/disconnect/broadcast
operations from a state satisfying the registry invariant, a session
identifier mapped in the registry has a nonempty subscriber list (no
empty entry survives any operation — the converse direction, that a
registered subscriber implies a map entry, is definitional since
subscribers exist only inside entries); `disconnect` on a registered
subscriber decreases `get_connection_count` by exactly one and deletes
the map entry when the count reaches zero; and `disconnect` of an
already-removed (or never-registered) subscriber leaves the state
unchanged. -/
theorem C3_registry_invariant (α : Type) (cm : ConnectionManager α)
    (h : Inv cm) :
    (∀ ops : List (Op α), ∀ sid qs,
      lookupA (run cm ops).conns sid = some qs → qs ≠ []) ∧
    (∀ sid i, i ∈ (queuesOf cm sid).map Queue.qid →
      get_connection_count (disconnect cm sid i) sid + 1 =
        get_connection_count cm sid ∧
      (get_connection_count cm sid = 1 →
        lookupA (disconnect cm sid i).conns sid = none)) ∧
    (∀ sid i, i ∉ (queuesOf cm sid).map Queue.qid →
      disconnect cm sid i = cm) := by
  refine ⟨?_, ?_, ?_⟩
  · intro ops sid qs hl
    exact (inv_run h ops).2.1 (sid, qs) (mem_of_lookupA hl)
  · intro sid i hi
    cases hl : lookupA cm.conns sid with
    | none =>
      exfalso
      rw [queuesOf, hl] at hi
      simp at hi
    | some qs =>
      have hqs : queuesOf cm sid = qs := by simp [queuesOf, hl]
      rw [hqs] at hi
      have hlen := removeQ_length hi
      unfold disconnect
      rw [hl]
      simp only []
      by_cases hemp : (removeQ qs i).isEmpty
      · have h0 : (removeQ qs i).length = 0 := by
          rw [List.isEmpty_iff] at hemp
          simp [hemp]
        constructor
        · rw [if_pos hemp]
          simp [get_connection_count, queuesOf, lookupA_eraseKey_self h.1, hl]
          omega
        · intro
          rw [if_pos hemp]
          exact lookupA_eraseKey_self h.1
      · constructor
        · rw [if_neg hemp]
          simp [get_connection_count, queuesOf, lookupA_setKey_self _ hl, hl]
          omega
        · intro hone
          exfalso
          rw [get_connection_count, hqs] at hone
          have : (removeQ qs i).length = 0 := by omega
          rw [List.length_eq_zero] at this
          rw [this] at hemp
          simp at hemp
  · intro sid i hni
    cases hl : lookupA cm.conns sid with
    | none =>
      unfold disconnect
      rw [hl]
    | some qs =>
      have hqs : queuesOf cm sid = qs := by simp [queuesOf, hl]
      rw [hqs] at hni
      have hrm : removeQ qs i = qs := removeQ_of_not_mem hni
      have hne : qs ≠ [] := h.2.1 (sid, qs) (mem_of_lookupA hl)
      have hemp : qs.isEmpty = false := by
        cases qs with
        | nil => exact absurd rfl hne
        | cons a l => rfl
      unfold disconnect
      rw [hl]
      simp only [hrm, hemp]
      simp [setKey_self_id hl]

theorem C3_registry_invariant_witness :
    (get_connection_count
        (disconnect ((connect ((connect (emptyCM Nat) "s1").1) "s1").1) "s1" 0)
        "s1" + 1 =
      get_connection_count ((connect ((connect (emptyCM Nat) "s1").1) "s1").1)
        "s1") ∧
    disconnect ((connect ((connect (emptyCM Nat) "s1").1) "s1").1) "s1" 99 =
      (connect ((connect (emptyCM Nat) "s1").1) "s1").1 := by
  have h := C3_registry_invariant Nat
    ((connect ((connect (emptyCM Nat) "s1").1) "s1").1) (by unfold Inv; decide)
  exact ⟨(h.2.1 "s1" 0 (by decide)).1, h.2.2 "s1" 99 (by decide)⟩


/-- Claim C4, amended: in every iteration of the open steady loop, when
idle time since the last frame is ≥ 25 s the handler emits the heartbeat
comment frame — which the code writes as `":heartbeat\n\n"`, with no
space after the colon — without consuming the queue (so the heartbeat
precedes any subsequent message frame) and resets the idle clock;
otherwise it waits on the subscriber queue with timeout exactly
`min(30, 25 − idle)`. -/
theorem C4_heartbeat_cadence (freshId nowTs : String) (idle : ℚ)
    (arrival : WaitOutcome EventDict) :
    (25 ≤ idle →
      streamIter freshId nowTs false idle arrival =
        ⟨some heartbeatFrame, false, some 0, false, none⟩) ∧
    (idle < 25 →
      (streamIter freshId nowTs false idle arrival).waited =
        some (min 30 (25 - idle))) := by
  constructor
  · intro h
    simp [streamIter, h]
  · intro h
    have h2 : ¬ (25 : ℚ) ≤ idle := not_le.mpr h
    cases arrival <;> simp [streamIter, h2]

theorem C4_heartbeat_cadence_witness :
    streamIter "f" "t" false 26 WaitOutcome.timedOut =
      ⟨some heartbeatFrame, false, some 0, false, none⟩ ∧
    (streamIter "f" "t" false 1 WaitOutcome.timedOut).waited =
      some (min 30 (25 - 1)) :=
  ⟨(C4_heartbeat_cadence "f" "t" 26 WaitOutcome.timedOut).1 (by norm_num),
   (C4_heartbeat_cadence "f" "t" 1 WaitOutcome.timedOut).2 (by norm_num)⟩

/-- The spec-written heartbeat frame `": heartbeat\n\n"` (with a space after
the colon) is not what the code emits: at idle = 25 s the generator
yields `":heartbeat\n\n"`, and the two strings differ. -/
theorem C4_heartbeat_cadence_counterexample :
    (streamIter "f" "t" false 25 WaitOutcome.timedOut).frame =
      some heartbeatFrame ∧
    heartbeatFrame ≠ specHeartbeatFrame := by
  constructor
  · norm_num [streamIter]
  · decide

/-- Claim C5: the Accept header is validated first — when it does not admit
`text/event-stream` the endpoint fails with protocol error 406 and the
registry state is returned untouched, `connect` never having been called;
when the header is acceptable but the Session Store has no such session,
the outcome is an error stream holding exactly one frame
(`event: error` with a JSON error body) and the registry is again
untouched — a terminal outcome distinct from the `streaming` constructor,
so the steady loop is never entered and no subscriber is registered. -/
theorem C5_connect_validation (α : Type) (accept : String)
    (store : String → Option Unit) (cm : ConnectionManager α) (sid : String) :
    (acceptsSSE accept = false →
      chat_events accept store cm sid = (.protocolError 406, cm)) ∧
    (acceptsSSE accept = true → store sid = none →
      chat_events accept store cm sid =
        (.errorStream [sseSessionNotFoundFrame], cm) ∧
      [sseSessionNotFoundFrame].length = 1) := by
  constructor
  · intro h
    simp [chat_events, h]
  · intro h hs
    simp [chat_events, h, hs]

theorem C5_connect_validation_witness :
    chat_events "application/json" (fun _ => some ()) (emptyCM Nat) "s1" =
      (.protocolError 406, emptyCM Nat) ∧
    chat_events "text/event-stream" (fun _ => none) (emptyCM Nat) "s1" =
      (.errorStream [sseSessionNotFoundFrame], emptyCM Nat) :=
  ⟨(C5_connect_validation Nat "application/json" (fun _ => some ())
      (emptyCM Nat) "s1").1 (by decide),
   ((C5_connect_validation Nat "text/event-stream" (fun _ => none)
      (emptyCM Nat) "s1").2 (by decide) rfl).1⟩

/-- Claim C10: every event dequeued by an open stream is emitted as a
message frame built from the `id`, `role`, `content`, `timestamp`
keys with defaults substituted for the missing ones (the fresh id, role
`"assistant"`, empty content, the current time); every such frame starts
with `event: message` — never a distinct termination or error frame — and
in particular the `session_deleted` notification broadcast by
`delete_session`, which carries none of the four fields except
`timestamp`, is delivered as an `event: message` frame with empty
content. -/
theorem C10_default_message_frames (freshId nowTs ts : String)
    (m : EventDict) :
    (streamIter freshId nowTs false 0 (WaitOutcome.msg m)).frame =
      some (messageFrame freshId nowTs m) ∧
    (∃ rest, messageFrame freshId nowTs m = "event: message" ++ rest) ∧
    msgDataOf freshId nowTs (sessionDeletedEvent ts) =
      (freshId, "assistant", "", ts) ∧
    messageFrame freshId nowTs (sessionDeletedEvent ts) =
      "event: message\ndata: " ++
        messageDataJson freshId "assistant" "" ts ++ "\n\n" := by
  refine ⟨by norm_num [streamIter], ?_, rfl, rfl⟩
  refine ⟨"\ndata: " ++ messageDataJson (m.id.getD freshId)
    (m.role.getD "assistant") (m.content.getD "") (m.timestamp.getD nowTs) ++
    "\n\n", ?_⟩
  have h1 : ("event: message" : String) ++ "\ndata: " =
      "event: message\ndata: " := rfl
  rw [messageFrame, ← h1]
  rw [String.append_assoc, String.append_assoc, String.append_assoc]


theorem truncateCap_length_le (cap : Nat) (l : List StoredMsg) :
    (truncateCap cap l).length ≤ cap := by
  unfold truncateCap
  by_cases h : cap < l.length
  · simp [h]
    omega
  · simp [h]
    omega

theorem truncateCap_of_length_101 {l : List StoredMsg} (h : l.length = 101) :
    truncateCap 100 l = l.drop 1 := by
  unfold truncateCap
  rw [h]
  norm_num

theorem saveLoop_attempt_bound (faults : Nat → Bool) (times : Nat → String)
    (cap : Nat) (sid : String) (msgs : List MsgIn)
    (store : String → Option SessionRec) (l : List Nat) :
    (saveLoop faults times cap sid msgs store l).attempts ≤ l.length ∧
    (saveLoop faults times cap sid msgs store l).fetches =
      (saveLoop faults times cap sid msgs store l).attempts := by
  induction l with
  | nil => simp [saveLoop]
  | cons a rest ih =>
    rcases Bool.eq_false_or_eq_true (faults a) with hf | hf
    case inr =>
      cases hst : store sid with
      | none => simp [saveLoop, hf, hst]
      | some sess =>
        rcases Bool.eq_false_or_eq_true
            ((msgs.filterMap (processMsg (times a))).isEmpty) with hv | hv <;>
          simp [saveLoop, hf, hst, hv]
    case inl =>
      cases rest with
      | nil => simp [saveLoop, hf]
      | cons b rest2 =>
        have h1 := ih.1
        have h2 := ih.2
        simp only [saveLoop, hf, if_true, List.isEmpty_cons, if_false,
          Bool.false_eq_true, List.length_cons] at h1 h2 ⊢
        constructor
        · omega
        · omega

/-- Claim C6, amended: the 100-message cap is enforced on the
`_save_session_messages` persistence path: a successful save stores the
validated message list truncated to the most recent `cap` entries (length
≤ 100 for the default cap), and persisting 101 valid messages m1…m100,m101
stores exactly m2…m101 — the relative order preserved, oldest dropped.
The direct `session.save()` path of `send_message` does not truncate
(see the counterexample). -/
theorem C6_cap_truncation (times : Nat → String) (sid : String)
    (msgs : List MsgIn) (store : String → Option SessionRec)
    (hsome : (store sid).isSome = true)
    (hvalid : (msgs.filterMap (processMsg (times 0))).isEmpty = false) :
    (saveSessionMessages (fun _ => false) times 100 sid msgs store).ok = true ∧
    (saveSessionMessages (fun _ => false) times 100 sid msgs store).store sid =
      some ⟨truncateCap 100 (msgs.filterMap (processMsg (times 0))), times 0⟩ ∧
    (truncateCap 100 (msgs.filterMap (processMsg (times 0)))).length ≤ 100 ∧
    ((msgs.filterMap (processMsg (times 0))).length = 101 →
      truncateCap 100 (msgs.filterMap (processMsg (times 0))) =
        (msgs.filterMap (processMsg (times 0))).drop 1) := by
  have hmsgs : msgs.isEmpty = false := by
    cases msgs with
    | nil => simp at hvalid
    | cons a l => rfl
  obtain ⟨sess, hsess⟩ := Option.isSome_iff_exists.mp hsome
  refine ⟨?_, ?_, truncateCap_length_le 100 _, fun h => truncateCap_of_length_101 h⟩
  · simp [saveSessionMessages, hmsgs, saveLoop, hsess, hvalid]
  · simp [saveSessionMessages, hmsgs, saveLoop, hsess, hvalid, storeSet]

theorem C6_cap_truncation_witness :
    (saveSessionMessages (fun _ => false) (fun _ => "now") 100 "s1"
        (List.replicate 101 ⟨some "user", some "text", some "x",
          some [("timestamp", MetaVal.vStr "t")]⟩)
        (fun _ => some ⟨[], "u"⟩)).ok = true ∧
    (saveSessionMessages (fun _ => false) (fun _ => "now") 100 "s1"
        (List.replicate 101 ⟨some "user", some "text", some "x",
          some [("timestamp", MetaVal.vStr "t")]⟩)
        (fun _ => some ⟨[], "u"⟩)).store "s1" =
      some ⟨List.replicate 100 ⟨"user", "x", [("timestamp", MetaVal.vStr "t")]⟩,
        "now"⟩ := by
  have h := C6_cap_truncation (fun _ => "now") "s1"
    (List.replicate 101 ⟨some "user", some "text", some "x",
      some [("timestamp", MetaVal.vStr "t")]⟩)
    (fun _ => some ⟨[], "u"⟩) rfl rfl
  refine ⟨h.1, ?_⟩
  rw [h.2.1]
  rfl

/-- The claim as stated — after *every* append operation the persisted
list has length ≤ 100 — fails on the `send_message` append path, which
persists `chat_session.messages + [user_message]` through the plain
`session.save()` with no truncation: pushing a 101st message onto a
100-message session persists 101 messages. -/
theorem C6_cap_truncation_counterexample :
    (sendMessageAppendUser ((List.range 100).map mkUserMsg) (mkUserMsg 100)).length
      = 101 ∧
    ¬ ((sendMessageAppendUser ((List.range 100).map mkUserMsg)
        (mkUserMsg 100)).length ≤ 100) := by
  constructor
  · simp [sendMessageAppendUser]
  · simp [sendMessageAppendUser]

/-- Claim C7: `_save_session_messages` makes at most 3 attempts, each
attempt (including every retry) re-fetching the session at the top of its
`try`; when the first two attempts fail transiently the backoffs slept are
`0.5 × 1` then `0.5 × 2` seconds and the store afterwards holds exactly
the message list written by the successful third attempt; when all three
attempts fail transiently the failure is surfaced to the caller as the
`False` return value (the outer handler converts the final re-raise; the
typed `TransientStoreError` is the specification name for this surfaced
failure) and the store is untouched. -/
theorem C7_persist_retry (faults : Nat → Bool) (times : Nat → String)
    (cap : Nat) (sid : String) (msgs : List MsgIn)
    (store : String → Option SessionRec) (hmsgs : msgs.isEmpty = false) :
    ((saveSessionMessages faults times cap sid msgs store).attempts ≤ 3 ∧
     (saveSessionMessages faults times cap sid msgs store).fetches =
       (saveSessionMessages faults times cap sid msgs store).attempts) ∧
    (faults 0 = true → faults 1 = true → faults 2 = false →
     (store sid).isSome = true →
     (msgs.filterMap (processMsg (times 2))).isEmpty = false →
      (saveSessionMessages faults times cap sid msgs store).sleeps =
        [1/2, 1] ∧
      (saveSessionMessages faults times cap sid msgs store).ok = true ∧
      (saveSessionMessages faults times cap sid msgs store).store sid =
        some ⟨truncateCap cap (msgs.filterMap (processMsg (times 2))),
          times 2⟩) ∧
    (faults 0 = true → faults 1 = true → faults 2 = true →
      (saveSessionMessages faults times cap sid msgs store).ok = false ∧
      (saveSessionMessages faults times cap sid msgs store).sleeps =
        [1/2, 1] ∧
      (saveSessionMessages faults times cap sid msgs store).store sid =
        store sid) := by
  refine ⟨?_, ?_, ?_⟩
  · have h := saveLoop_attempt_bound faults times cap sid msgs store [0, 1, 2]
    by_cases hm : msgs.isEmpty
    · simp [saveSessionMessages, hm]
    · simp only [saveSessionMessages, hm, if_false]
      exact ⟨by simpa using h.1, h.2⟩
  · intro h0 h1 h2 hsome hvalid
    obtain ⟨sess, hsess⟩ := Option.isSome_iff_exists.mp hsome
    refine ⟨?_, ?_, ?_⟩ <;>
      simp [saveSessionMessages, hmsgs, saveLoop, h0, h1, h2, hsess, hvalid,
        storeSet] <;> norm_num
  · intro h0 h1 h2
    refine ⟨?_, ?_, ?_⟩ <;>
      simp [saveSessionMessages, hmsgs, saveLoop, h0, h1, h2] <;> norm_num

theorem C7_persist_retry_witness :
    (saveSessionMessages (fun a => decide (a < 2)) (fun a => toString a) 100 "s1"
        [⟨some "user", some "text", some "hello", some []⟩]
        (fun _ => some ⟨[], "u"⟩)).sleeps = [1/2, 1] ∧
    (saveSessionMessages (fun a => decide (a < 2)) (fun a => toString a) 100 "s1"
        [⟨some "user", some "text", some "hello", some []⟩]
        (fun _ => some ⟨[], "u"⟩)).ok = true ∧
    (saveSessionMessages (fun a => decide (a < 2)) (fun a => toString a) 100 "s1"
        [⟨some "user", some "text", some "hello", some []⟩]
        (fun _ => some ⟨[], "u"⟩)).store "s1" =
      some ⟨[⟨"user", "hello", [("timestamp", MetaVal.vStr "2")]⟩], "2"⟩ := by
  have h := (C7_persist_retry (fun a => decide (a < 2)) (fun a => toString a)
      100 "s1" [⟨some "user", some "text", some "hello", some []⟩]
      (fun _ => some ⟨[], "u"⟩) rfl).2.1 rfl rfl rfl rfl rfl
  refine ⟨h.1, h.2.1, ?_⟩
  rw [h.2.2]
  rfl


theorem messageFrame_starts (freshId nowTs : String) (m : EventDict) :
    ∃ rest, messageFrame freshId nowTs m = "event: message" ++ rest := by
  refine ⟨"\ndata: " ++ messageDataJson (m.id.getD freshId)
    (m.role.getD "assistant") (m.content.getD "") (m.timestamp.getD nowTs) ++
    "\n\n", ?_⟩
  have h1 : ("event: message" : String) ++ "\ndata: " =
      "event: message\ndata: " := rfl
  rw [messageFrame, ← h1]
  rw [String.append_assoc, String.append_assoc, String.append_assoc]

/-- Claim C8, amended: for every inbound message that triggers generation,
the empty-content assistant placeholder (id `aiId`) is appended and the
session persisted before the engine is invoked, whatever the generation
outcome; on generation failure the placeholder — matched by id against
the last stored message — is replaced by a message whose content is the
human-readable error string and whose metadata `error` entry holds the
exception text `str(e)` (a truthy string, not the boolean `true`); the
final list is persisted, the final message is broadcast through the
registry (the error payload, then the `message_complete` payload, each
reaching subscribers as an `event: message` frame), and the request still
returns normally — a generation failure never deletes the session or
makes it unusable. -/
theorem C8_generation_failure (msgs : List Msg)
    (aiId t0 t1 errId t2 err freshId nowTs : String) :
    (∀ gen, (generationPhase msgs aiId t0 t1 errId t2 gen).savedBeforeGen =
        msgs ++ [⟨aiId, "text", "assistant", "", t0, []⟩] ∧
      (generationPhase msgs aiId t0 t1 errId t2 gen).saves.head? =
        some (msgs ++ [⟨aiId, "text", "assistant", "", t0, []⟩])) ∧
    (generationPhase msgs aiId t0 t1 errId t2 (.failure err)).finalMessages =
      msgs ++ [⟨aiId, "text", "assistant", errorLead ++ err, t1,
        [("error", MetaVal.vStr err)]⟩] ∧
    (generationPhase msgs aiId t0 t1 errId t2 (.failure err)).saves.getLast? =
      some ((generationPhase msgs aiId t0 t1 errId t2
        (.failure err)).finalMessages) ∧
    (generationPhase msgs aiId t0 t1 errId t2 (.failure err)).broadcasts =
      [BPayload.genError ⟨aiId, "text", "assistant", errorLead ++ err, t0,
          [("error", MetaVal.vStr err)]⟩,
       BPayload.messageComplete ⟨aiId, "text", "assistant",
          errorLead ++ err, t1, [("error", MetaVal.vStr err)]⟩] ∧
    (∃ rest, messageFrame freshId nowTs (toEventDict
        (BPayload.messageComplete ⟨aiId, "text", "assistant",
          errorLead ++ err, t1, [("error", MetaVal.vStr err)]⟩)) =
      "event: message" ++ rest) ∧
    (generationPhase msgs aiId t0 t1 errId t2 (.failure err)).http =
      .ok (errorLead ++ err) := by
  refine ⟨?_, ?_, ?_, rfl, messageFrame_starts freshId nowTs _, rfl⟩
  · intro gen
    cases gen with
    | failure e => exact ⟨rfl, rfl⟩
    | success c =>
      by_cases hc : pyStrip c = "" <;> simp [generationPhase, hc]
  · simp [generationPhase, replaceLastById]
  · simp [generationPhase, replaceLastById]

/-- The claim as stated — `metadata.error` is set to `true` on generation
failure — is false: the inner handler stores the exception string
(`ai_message["metadata"]["error"] = str(e)`), a value distinct from the
boolean `true`. -/
theorem C8_generation_failure_counterexample :
    (generationPhase [] "a1" "t0" "t1" "e1" "t2"
        (GenOutcome.failure "boom")).finalMessages =
      [⟨"a1", "text", "assistant", errorLead ++ "boom", "t1",
        [("error", MetaVal.vStr "boom")]⟩] ∧
    MetaVal.vStr "boom" ≠ MetaVal.vBool true := by
  exact ⟨rfl, by decide⟩

theorem foldlMax_spec (s : ChatSessionRec) (rest : List ChatSessionRec) :
    (rest.foldl (fun cur x => if cur.updated < x.updated then x else cur) s = s ∨
      rest.foldl (fun cur x => if cur.updated < x.updated then x else cur) s
        ∈ rest) ∧
    s.updated ≤
      (rest.foldl (fun cur x => if cur.updated < x.updated then x else cur)
        s).updated ∧
    (∀ x ∈ rest, x.updated ≤
      (rest.foldl (fun cur x => if cur.updated < x.updated then x else cur)
        s).updated) := by
  induction rest generalizing s with
  | nil => simp
  | cons y rs ih =>
    simp only [List.foldl_cons]
    by_cases hc : s.updated < y.updated
    · rw [if_pos hc]
      obtain ⟨h1, h2, h3⟩ := ih y
      refine ⟨?_, le_trans (le_of_lt hc) h2, ?_⟩
      · rcases h1 with h | h
        · refine Or.inr ?_
          rw [h]
          exact List.mem_cons_self _ _
        · exact Or.inr (List.mem_cons_of_mem _ h)
      · intro x hx
        rcases List.mem_cons.mp hx with h | h
        · rw [h]
          exact h2
        · exact h3 x h
    · rw [if_neg hc]
      obtain ⟨h1, h2, h3⟩ := ih s
      refine ⟨?_, h2, ?_⟩
      · rcases h1 with h | h
        · exact Or.inl h
        · exact Or.inr (List.mem_cons_of_mem _ h)
      · intro x hx
        rcases List.mem_cons.mp hx with h | h
        · rw [h]
          exact le_trans (Nat.le_of_not_lt hc) h2
        · exact h3 x h

theorem maxByUpdated_spec {l : List ChatSessionRec} {s : ChatSessionRec}
    (h : maxByUpdated l = some s) :
    s ∈ l ∧ ∀ x ∈ l, x.updated ≤ s.updated := by
  cases l with
  | nil => simp [maxByUpdated] at h
  | cons a rest =>
    simp only [maxByUpdated, Option.some.injEq] at h
    obtain ⟨h1, h2, h3⟩ := foldlMax_spec a rest
    rw [h] at h1 h2 h3
    constructor
    · rcases h1 with h4 | h4
      · rw [h4]
        exact List.mem_cons_self _ _
      · exact List.mem_cons_of_mem _ h4
    · intro x hx
      rcases List.mem_cons.mp hx with h4 | h4
      · rw [h4]
        exact h2
      · exact h3 x h4

/-- Claim C9, amended: `get_or_create_chat_session` returns the directly
fetched session when the identifier contains a colon and resolves by id;
otherwise, when sessions titled with the identifier exist, the one with
the latest `updated` stamp among them — an existing session, never a
created one; otherwise it creates and persists a session titled with the
stripped `session_name` when non-blank, else
`"Chat Session - " + timestamp`, recording the notebook id in the
metadata and relating the session to the notebook; and when the notebook
does not exist on the create path the call fails with an internal error
(HTTP 500) — not NotFound, because the broad exception handler of
`get_notebook_by_name_or_id` converts its own 404 into a 500. -/
theorem C9_resolve_or_create (store : SessionStore)
    (cache : List (String × Notebook)) (nbGetById : String → Option Notebook)
    (allNotebooks : List Notebook) (notebook_id : String)
    (nowStamp newId : String) (nowUpdated : Nat) :
    (∀ sid s, ':' ∈ sid.data → store.getById sid = some s →
      get_or_create_chat_session store cache nbGetById allNotebooks
        notebook_id (some sid) none nowStamp newId nowUpdated =
        .ok (.found s)) ∧
    (∀ sid s, sid ≠ "" →
      (if ':' ∈ sid.data then store.getById sid else none) = none →
      maxByUpdated (store.findByTitle sid) = some s →
      get_or_create_chat_session store cache nbGetById allNotebooks
          notebook_id (some sid) none nowStamp newId nowUpdated =
        .ok (.found s) ∧
      s ∈ store.findByTitle sid ∧
      ∀ x ∈ store.findByTitle sid, x.updated ≤ s.updated) ∧
    (∀ name nb,
      get_notebook_by_name_or_id cache nbGetById allNotebooks notebook_id =
        .ok nb →
      get_or_create_chat_session store cache nbGetById allNotebooks
          notebook_id none (some name) nowStamp newId nowUpdated =
        .ok (.created ⟨newId,
          (if pyStrip name = "" then "Chat Session - " ++ nowStamp
            else pyStrip name), nowUpdated, [], some notebook_id,
          some nb.id⟩)) ∧
    (getNotebookInner cache nbGetById allNotebooks notebook_id =
        .error 404 →
      get_or_create_chat_session store cache nbGetById allNotebooks
        notebook_id none none nowStamp newId nowUpdated = .error 500) := by
  refine ⟨?_, ?_, ?_, ?_⟩
  · intro sid s hcolon hget
    have hne : ¬ sid = "" := by
      intro he
      rw [he] at hcolon
      exact absurd hcolon (by decide)
    simp [get_or_create_chat_session, hne, hcolon, hget]
  · intro sid s hne hres hmax
    obtain ⟨hmem, hmaxle⟩ := maxByUpdated_spec hmax
    refine ⟨?_, hmem, hmaxle⟩
    simp [get_or_create_chat_session, hne, hres, hmax]
  · intro name nb hnb
    simp [get_or_create_chat_session, hnb]
  · intro hinner
    simp [get_or_create_chat_session, get_notebook_by_name_or_id, hinner]

theorem C9_resolve_or_create_witness :
    get_or_create_chat_session sampleSessionStore [] (fun _ => none)
      [sampleNotebook] "nb1" (some "cs:1") none "TS" "new1" 7 =
      .ok (.found sampleSessionA) ∧
    get_or_create_chat_session sampleSessionStore [] (fun _ => none)
      [sampleNotebook] "nb1" (some "Test") none "TS" "new1" 7 =
      .ok (.found sampleSessionB) ∧
    get_or_create_chat_session sampleSessionStore [] (fun _ => none)
      [sampleNotebook] "nb1" none (some "  ") "TS" "new1" 7 =
      .ok (.created ⟨"new1", "Chat Session - TS", 7, [], some "nb1",
        some "nb:1"⟩) ∧
    get_or_create_chat_session sampleSessionStore [] (fun _ => none)
      [] "nb1" none none "TS" "new1" 7 = .error 500 := by
  have h := C9_resolve_or_create sampleSessionStore [] (fun _ => none)
    [sampleNotebook] "nb1" "TS" "new1" 7
  have h2 := C9_resolve_or_create sampleSessionStore [] (fun _ => none)
    [] "nb1" "TS" "new1" 7
  refine ⟨h.1 "cs:1" sampleSessionA (by decide) rfl,
    (h.2.1 "Test" sampleSessionB (by decide) (by decide) (by decide)).1,
    ?_, h2.2.2.2 rfl⟩
  have h3 := h.2.2.1 "  " sampleNotebook rfl
  exact h3.trans (by rfl)

/-- The claim as stated — notebook absent on the create path fails with
NotFound — is false at a concrete input: with an empty notebook store the
call yields the internal error 500, not 404. -/
theorem C9_resolve_or_create_counterexample :
    get_or_create_chat_session ⟨fun _ => none, fun _ => []⟩ [] (fun _ => none)
      [] "nb1" none (some "Test") "TS" "new1" 0 = .error 500 ∧
    (Except.error 500 : Except Nat SessionResult) ≠ .error 404 := by
  constructor
  · rfl
  · intro h
    simp at h

end ChatCore
